import Mathlib

/-!
Verification development for the CLI's configuration core:
the webhook-subscription constraint validator (`WebhooksSchema.superRefine`),
the configuration rewriter (`elementwiseRewrite`), the `App` extension
lookups and UUID update, and the `ui_extension` specification's derived
feature flags.

Conventions for the embedding of the TypeScript source:
- optional string fields become `Option String`; JavaScript truthiness of a
  string field (`undefined` and `""` are falsy) is `truthy`;
- the zod `superRefine` adds at most one issue per run (every `ctx.addIssue`
  is immediately followed by `return zod.NEVER`), so the validator is
  embedded as a function into `Option WebhookIssue` (`none` = success);
- JavaScript objects used as string maps become association lists with
  first-match lookup.
-/

namespace CliSpec

/-- JS truthiness of an optional string field: `undefined` and `""` are falsy. -/
def truthy : Option String → Bool
  | some s => s ≠ ""
  | none => false

/-- The contribution of an optional string field to a `filter(Boolean)` list. -/
def tval : Option String → List String
  | some s => if s = "" then [] else [s]
  | none => []

/-- The delimiter used to build subscription keys (`'::'` in the source). -/
def delim : String := "::"

/-- One entry of the `subscriptions` array (`WebhookSubscriptionSchema`). -/
structure WebhookSubscription where
  topic : String
  sub_topic : Option String := none
  format : Option String := none
  include_fields : List String := []
  metafield_namespaces : List String := []
  subscription_endpoint_url : Option String := none
  path : Option String := none
  pubsub_project : Option String := none
  pubsub_topic : Option String := none
  arn : Option String := none
deriving DecidableEq, Repr

/-- The input of `WebhooksSchema.superRefine`: the parsed top-level webhooks
object, with `topics` and `subscriptions` already defaulted to `[]`. -/
structure WebhooksConfig where
  api_version : String := ""
  subscription_endpoint_url : Option String := none
  pubsub_project : Option String := none
  pubsub_topic : Option String := none
  arn : Option String := none
  topics : List String := []
  subscriptions : List WebhookSubscription := []
deriving DecidableEq, Repr

/-- The constraint violations the `superRefine` can report, one constructor per
`ctx.addIssue` site, carrying the error path data (record index / topic). -/
inductive WebhookIssue where
  | IncompletePubSubPairTop
  | MultipleDestinationsTop
  | UnusedDestination
  | TopicsMissingDestination
  | DuplicateSubscriptionTopic (topic : String)
  | IncompletePubSubPairSub (i : Nat)
  | MultipleDestinationsSub (i : Nat)
  | MissingDestinationSub (i : Nat)
  | PathMissingEndpointSub (i : Nat)
  | PathWithIncompatibleDestinationSub (i : Nat)
  | DuplicateSubscriptionSub (i : Nat) (topic : String)
deriving DecidableEq, Repr

/-- `[...].filter(Boolean).length` over optional string fields. -/
def countTruthy (l : List (Option String)) : Nat :=
  (l.filter (fun x => truthy x)).length

/-- `[subscription_endpoint_url, pubsub_project && pubsub_topic, arn].filter(Boolean).length`
at the top level; the JS `&&` entry is truthy iff both fields are truthy. -/
def topLevelDestCount (c : WebhooksConfig) : Nat :=
  (if truthy c.subscription_endpoint_url then 1 else 0)
    + (if truthy c.pubsub_project && truthy c.pubsub_topic then 1 else 0)
    + (if truthy c.arn then 1 else 0)

/-- `[url, project, topic, arn].filter(Boolean).join('::')` at the top level. -/
def topLevelDestination (c : WebhooksConfig) : String :=
  String.intercalate delim
    (tval c.subscription_endpoint_url ++ tval c.pubsub_project
      ++ tval c.pubsub_topic ++ tval c.arn)

/-- The per-record destination count (same shape as `topLevelDestCount`). -/
def subDestCount (s : WebhookSubscription) : Nat :=
  (if truthy s.subscription_endpoint_url then 1 else 0)
    + (if truthy s.pubsub_project && truthy s.pubsub_topic then 1 else 0)
    + (if truthy s.arn then 1 else 0)

/-- The record's own joined destination fields. -/
def subOwnDestination (s : WebhookSubscription) : String :=
  String.intercalate delim
    (tval s.subscription_endpoint_url ++ tval s.pubsub_project
      ++ tval s.pubsub_topic ++ tval s.arn)

/-- The destination in effect for a record: its own joined fields when the join
is truthy, otherwise the top-level joined destination (`if (!destination)`). -/
def effectiveDestination (c : WebhooksConfig) (s : WebhookSubscription) : String :=
  let d := subOwnDestination s
  if d = "" then topLevelDestination c else d

/-- The path fragment appended to the destination: the record's `path` when it
is truthy, otherwise nothing (`if (subscription.path)`). -/
def pathValue (s : WebhookSubscription) : String :=
  match s.path with
  | some p => if p = "" then "" else p
  | none => ""

/-- The uniqueness key computed for a top-level topic. -/
def topicKey (c : WebhooksConfig) (t : String) : String :=
  t ++ delim ++ topLevelDestination c

/-- The uniqueness key computed for a subscription record:
topic `::` effective destination with the truthy path appended. -/
def subscriptionKey (c : WebhooksConfig) (s : WebhookSubscription) : String :=
  s.topic ++ delim ++ (effectiveDestination c s ++ pathValue s)

/-- Check 1: exactly one of the top-level pubsub pair is set. -/
def check1Top (c : WebhooksConfig) : Bool :=
  countTruthy [c.pubsub_project, c.pubsub_topic] == 1

/-- Check 2: more than one top-level destination form is set. -/
def check2Top (c : WebhooksConfig) : Bool :=
  topLevelDestCount c > 1

/-- Check 3: a top-level destination with neither topics nor subscriptions. -/
def check3Top (c : WebhooksConfig) : Bool :=
  topLevelDestCount c != 0 && c.topics.isEmpty && c.subscriptions.isEmpty

/-- Check 4: top-level topics without a top-level destination. -/
def check4Top (c : WebhooksConfig) : Bool :=
  topLevelDestCount c == 0 && !c.topics.isEmpty

/-- Per-record check a: exactly one of the record's pubsub pair is set. -/
def subCheckA (s : WebhookSubscription) : Bool :=
  countTruthy [s.pubsub_project, s.pubsub_topic] == 1

/-- Per-record check b: more than one destination form on the record. -/
def subCheckB (s : WebhookSubscription) : Bool :=
  subDestCount s > 1

/-- Per-record check c: no destination at the top level nor on the record. -/
def subCheckC (c : WebhooksConfig) (s : WebhookSubscription) : Bool :=
  topLevelDestCount c == 0 && subDestCount s == 0

/-- Per-record check d: a truthy path without a truthy endpoint URL at either
level (`!subscription_endpoint_url && !subscription.subscription_endpoint_url && subscription.path`). -/
def subCheckD (c : WebhooksConfig) (s : WebhookSubscription) : Bool :=
  !truthy c.subscription_endpoint_url && !truthy s.subscription_endpoint_url && truthy s.path

/-- Per-record check e: a truthy path together with a record-level arn or
pubsub project (`(subscription.arn || subscription.pubsub_project) && subscription.path`). -/
def subCheckE (s : WebhookSubscription) : Bool :=
  (truthy s.arn || truthy s.pubsub_project) && truthy s.path

/-- The guard on the top-level topics loop:
`if (topLevelDestination && topics.length)`. -/
def topGuard (c : WebhooksConfig) : Bool :=
  topLevelDestination c != "" && !c.topics.isEmpty

/-- The top-level topics loop: register each topic's key, failing on the first
key already seen. -/
def addTopicKeys (c : WebhooksConfig) :
    List String → List String → Except WebhookIssue (List String)
  | [], seen => .ok seen
  | t :: ts, seen =>
    let k := topicKey c t
    if k ∈ seen then .error (.DuplicateSubscriptionTopic t)
    else addTopicKeys c ts (k :: seen)

/-- One iteration of the subscriptions loop: the per-record checks a–e in
source order, then the duplicate-key check, then registration of the key. -/
def checkSubscription (c : WebhooksConfig) (i : Nat) (s : WebhookSubscription)
    (seen : List String) : Except WebhookIssue (List String) :=
  if subCheckA s then .error (.IncompletePubSubPairSub i)
  else if subCheckB s then .error (.MultipleDestinationsSub i)
  else if subCheckC c s then .error (.MissingDestinationSub i)
  else if subCheckD c s then .error (.PathMissingEndpointSub i)
  else if subCheckE s then .error (.PathWithIncompatibleDestinationSub i)
  else
    let k := subscriptionKey c s
    if k ∈ seen then .error (.DuplicateSubscriptionSub i s.topic)
    else .ok (k :: seen)

/-- The subscriptions loop, threading the set of seen keys. -/
def checkSubscriptions (c : WebhooksConfig) :
    Nat → List WebhookSubscription → List String → Option WebhookIssue
  | _, [], _ => none
  | i, s :: rest, seen =>
    match checkSubscription c i s seen with
    | .error e => some e
    | .ok seen' => checkSubscriptions c (i + 1) rest seen'

/-- The whole `WebhooksSchema.superRefine` body: the four top-level checks in
source order, then the top-level topics loop, then the subscriptions loop.
`none` means the document passes. -/
def webhooksValidate (c : WebhooksConfig) : Option WebhookIssue :=
  if check1Top c then some .IncompletePubSubPairTop
  else if check2Top c then some .MultipleDestinationsTop
  else if check3Top c then some .UnusedDestination
  else if check4Top c then some .TopicsMissingDestination
  else
    match (if topGuard c then addTopicKeys c c.topics [] else .ok []) with
    | .error e => some e
    | .ok seen => checkSubscriptions c 0 c.subscriptions seen

/-- The subscription-key triples (topic, effective destination, path fragment)
of a document: one per top-level topic (when the topics loop runs) and one per
subscription record. -/
def webhookTriples (c : WebhooksConfig) : List (String × String × String) :=
  (if topGuard c then c.topics.map (fun t => (t, topLevelDestination c, "")) else [])
    ++ c.subscriptions.map (fun s => (s.topic, effectiveDestination c s, pathValue s))

/-- The string key a triple resolves to: `topic ++ '::' ++ destination ++ path`. -/
def tripleKey : String × String × String → String
  | (t, d, p) => t ++ delim ++ (d ++ p)

/-- A record passes the per-record shape/destination checks a–e. -/
def recordChecksOK (c : WebhooksConfig) (s : WebhookSubscription) : Bool :=
  !subCheckA s && !subCheckB s && !subCheckC c s && !subCheckD c s && !subCheckE s

/-- A document passes all shape/destination checks: the four top-level checks
and the per-record checks a–e of every record. -/
def destChecksOK (c : WebhooksConfig) : Bool :=
  !check1Top c && !check2Top c && !check3Top c && !check4Top c
    && c.subscriptions.all (recordChecksOK c)

/-- The validation outcome is a `DuplicateSubscription` error (at either the
top-level-topics site or the per-record site). -/
def isDuplicateIssue : Option WebhookIssue → Bool
  | some (.DuplicateSubscriptionTopic _) => true
  | some (.DuplicateSubscriptionSub _ _) => true
  | _ => false

lemma tripleKey_topic (c : WebhooksConfig) (t : String) :
    tripleKey (t, topLevelDestination c, "") = topicKey c t := by
  simp [tripleKey, topicKey]

lemma tripleKey_sub (c : WebhooksConfig) (s : WebhookSubscription) :
    tripleKey (s.topic, effectiveDestination c s, pathValue s) = subscriptionKey c s :=
  rfl

lemma addTopicKeys_ok (c : WebhooksConfig) : ∀ (ts seen : List String),
    (ts.map (topicKey c) ++ seen).Nodup →
    addTopicKeys c ts seen = .ok ((ts.map (topicKey c)).reverse ++ seen) := by
  intro ts
  induction ts with
  | nil => intro seen _; simp [addTopicKeys]
  | cons t ts ih =>
    intro seen h
    have hperm : ((t :: ts).map (topicKey c) ++ seen).Perm
        (topicKey c t :: (ts.map (topicKey c) ++ seen)) := by
      simp
    have h' : (topicKey c t :: (ts.map (topicKey c) ++ seen)).Nodup := hperm.nodup h
    have hnotmem : topicKey c t ∉ ts.map (topicKey c) ++ seen :=
      (List.nodup_cons.mp h').1
    have hnotseen : topicKey c t ∉ seen := fun hm => hnotmem (List.mem_append_right _ hm)
    have hrec : (ts.map (topicKey c) ++ (topicKey c t :: seen)).Nodup :=
      (List.perm_middle).symm.nodup h'
    rw [addTopicKeys, if_neg hnotseen, ih _ hrec]
    simp

lemma addTopicKeys_err (c : WebhooksConfig) : ∀ (ts seen : List String), seen.Nodup →
    ¬ (ts.map (topicKey c) ++ seen).Nodup →
    ∃ t, addTopicKeys c ts seen = .error (.DuplicateSubscriptionTopic t) := by
  intro ts
  induction ts with
  | nil => intro seen hs h; exact absurd hs (by simpa using h)
  | cons t ts ih =>
    intro seen hs h
    by_cases hmem : topicKey c t ∈ seen
    · exact ⟨t, by rw [addTopicKeys, if_pos hmem]⟩
    · have hs' : (topicKey c t :: seen).Nodup := List.nodup_cons.mpr ⟨hmem, hs⟩
      have h' : ¬ (ts.map (topicKey c) ++ (topicKey c t :: seen)).Nodup := by
        intro hn
        exact h (by simpa using (List.perm_middle.nodup hn))
      obtain ⟨t', ht'⟩ := ih (topicKey c t :: seen) hs' h'
      exact ⟨t', by rw [addTopicKeys, if_neg hmem]; exact ht'⟩

lemma checkSubscription_of_ok (c : WebhooksConfig) (i : Nat) (s : WebhookSubscription)
    (seen : List String) (h : recordChecksOK c s = true) :
    checkSubscription c i s seen =
      if subscriptionKey c s ∈ seen then .error (.DuplicateSubscriptionSub i s.topic)
      else .ok (subscriptionKey c s :: seen) := by
  simp only [recordChecksOK, Bool.and_eq_true, Bool.not_eq_true'] at h
  obtain ⟨⟨⟨⟨ha, hb⟩, hc⟩, hd⟩, he⟩ := h
  simp [checkSubscription, ha, hb, hc, hd, he]

lemma checkSubscriptions_ok (c : WebhooksConfig) : ∀ (subs : List WebhookSubscription)
    (i : Nat) (seen : List String),
    (∀ s ∈ subs, recordChecksOK c s = true) →
    (subs.map (subscriptionKey c) ++ seen).Nodup →
    checkSubscriptions c i subs seen = none := by
  intro subs
  induction subs with
  | nil => intro i seen _ _; simp [checkSubscriptions]
  | cons s subs ih =>
    intro i seen hok h
    have hperm : ((s :: subs).map (subscriptionKey c) ++ seen).Perm
        (subscriptionKey c s :: (subs.map (subscriptionKey c) ++ seen)) := by
      simp
    have h' : (subscriptionKey c s :: (subs.map (subscriptionKey c) ++ seen)).Nodup :=
      hperm.nodup h
    have hnotmem := (List.nodup_cons.mp h').1
    have hnotseen : subscriptionKey c s ∉ seen := fun hm => hnotmem (List.mem_append_right _ hm)
    have hrec : (subs.map (subscriptionKey c) ++ (subscriptionKey c s :: seen)).Nodup :=
      (List.perm_middle).symm.nodup h'
    rw [checkSubscriptions, checkSubscription_of_ok c i s seen (hok s (by simp)),
      if_neg hnotseen]
    exact ih (i + 1) _ (fun x hx => hok x (by simp [hx])) hrec

lemma checkSubscriptions_err (c : WebhooksConfig) : ∀ (subs : List WebhookSubscription)
    (i : Nat) (seen : List String), seen.Nodup →
    (∀ s ∈ subs, recordChecksOK c s = true) →
    ¬ (subs.map (subscriptionKey c) ++ seen).Nodup →
    ∃ j t, checkSubscriptions c i subs seen = some (.DuplicateSubscriptionSub j t) := by
  intro subs
  induction subs with
  | nil => intro i seen hs _ h; exact absurd hs (by simpa using h)
  | cons s subs ih =>
    intro i seen hs hok h
    by_cases hmem : subscriptionKey c s ∈ seen
    · refine ⟨i, s.topic, ?_⟩
      rw [checkSubscriptions, checkSubscription_of_ok c i s seen (hok s (by simp)),
        if_pos hmem]
    · have hs' : (subscriptionKey c s :: seen).Nodup := List.nodup_cons.mpr ⟨hmem, hs⟩
      have h' : ¬ (subs.map (subscriptionKey c) ++ (subscriptionKey c s :: seen)).Nodup := by
        intro hn
        exact h (by simpa using (List.perm_middle.nodup hn))
      obtain ⟨j, t, hjt⟩ := ih (i + 1) (subscriptionKey c s :: seen) hs'
        (fun x hx => hok x (by simp [hx])) h'
      refine ⟨j, t, ?_⟩
      rw [checkSubscriptions, checkSubscription_of_ok c i s seen (hok s (by simp)),
        if_neg hmem]
      exact hjt

/-- The document of the spec's example: one top-level topic with a top-level
endpoint URL. -/
def exampleSingleTopic : WebhooksConfig :=
  { api_version := "2023-04"
    subscription_endpoint_url := some "https://a.com"
    topics := ["orders/create"] }

/-- The same document with the top-level topic listed twice. -/
def exampleDoubleTopic : WebhooksConfig :=
  { exampleSingleTopic with topics := ["orders/create", "orders/create"] }

/-- C1: for every webhooks document that passes the shape and destination
checks, if two subscription-key triples (topic, effective destination, path)
coincide — between two records, between a top-level topic and a record, or
between two top-level topics — validation fails with a `DuplicateSubscription`
error; in particular the example document with its single top-level topic
listed twice fails with `DuplicateSubscription`, while with the topic listed
once it validates successfully. -/
theorem duplicate_triple_fails_validation :
    webhooksValidate exampleSingleTopic = none
    ∧ isDuplicateIssue (webhooksValidate exampleDoubleTopic) = true
    ∧ ∀ c : WebhooksConfig, destChecksOK c = true → ¬ (webhookTriples c).Nodup →
        isDuplicateIssue (webhooksValidate c) = true := by
  refine ⟨by decide, by decide, ?_⟩
  intro c hok hdup
  simp only [destChecksOK, Bool.and_eq_true, Bool.not_eq_true', List.all_eq_true] at hok
  obtain ⟨⟨⟨⟨h1, h2⟩, h3⟩, h4⟩, hrec⟩ := hok
  have hkeys : ¬ ((webhookTriples c).map tripleKey).Nodup := fun hn => hdup hn.of_map
  have hmapped : (webhookTriples c).map tripleKey =
      (if topGuard c then c.topics.map (topicKey c) else [])
        ++ c.subscriptions.map (subscriptionKey c) := by
    simp only [webhookTriples, List.map_append]
    congr 1
    · by_cases hg : topGuard c
      · simp [hg, List.map_map, Function.comp, tripleKey_topic]
      · simp [hg]
    · simp [List.map_map, Function.comp, tripleKey_sub]
  rw [hmapped] at hkeys
  rw [webhooksValidate, if_neg (by simp [h1]), if_neg (by simp [h2]),
    if_neg (by simp [h3]), if_neg (by simp [h4])]
  by_cases hg : topGuard c
  · rw [if_pos hg] at *
    by_cases htop : (c.topics.map (topicKey c)).Nodup
    · have hadd := addTopicKeys_ok c c.topics [] (by simpa using htop)
      rw [hadd]
      have hsubdup : ¬ (c.subscriptions.map (subscriptionKey c)
          ++ ((c.topics.map (topicKey c)).reverse ++ [])).Nodup := by
        intro hn
        apply hkeys
        have hp : ((c.subscriptions.map (subscriptionKey c)
            ++ ((c.topics.map (topicKey c)).reverse ++ []))).Perm
            (c.topics.map (topicKey c) ++ c.subscriptions.map (subscriptionKey c)) := by
          simp only [List.append_nil]
          exact (List.perm_append_comm).trans
            (List.Perm.append ((c.topics.map (topicKey c)).reverse_perm) (List.Perm.refl _))
        exact hp.nodup hn
      obtain ⟨j, t, hjt⟩ := checkSubscriptions_err c c.subscriptions 0
        ((c.topics.map (topicKey c)).reverse ++ [])
        (by simpa using List.nodup_reverse.mpr htop) (fun s hs => hrec s hs) hsubdup
      rw [List.append_nil] at hjt
      simp [hadd, hjt, isDuplicateIssue]
    · obtain ⟨t, ht⟩ := addTopicKeys_err c c.topics [] (by simp) (by simpa using htop)
      simp [ht, isDuplicateIssue]
  · rw [if_neg hg] at *
    simp only [List.nil_append] at hkeys
    obtain ⟨j, t, hjt⟩ := checkSubscriptions_err c c.subscriptions 0 []
      (by simp) (fun s hs => hrec s hs) (by simpa using hkeys)
    simp [hjt, isDuplicateIssue]

/-- Witness for C1: the theorem applied to the duplicated-topic example. -/
theorem duplicate_triple_fails_validation_witness :
    isDuplicateIssue (webhooksValidate exampleDoubleTopic) = true :=
  duplicate_triple_fails_validation.2.2 exampleDoubleTopic (by decide) (by decide)

/-- The validation outcome is the path-with-incompatible-destination error. -/
def isPathIncompatIssue : Option WebhookIssue → Bool
  | some (.PathWithIncompatibleDestinationSub _) => true
  | _ => false

/-- The validation outcome is the destination-exclusivity error. -/
def isMultipleDestIssue : Option WebhookIssue → Bool
  | some .MultipleDestinationsTop => true
  | some (.MultipleDestinationsSub _) => true
  | _ => false

/-- The validation outcome is the `PathMissingEndpoint` error. -/
def isPathMissingEndpointIssue : Option WebhookIssue → Bool
  | some (.PathMissingEndpointSub _) => true
  | _ => false

/-- A record with a relative path and nothing else. -/
def pathOnlyRecord : WebhookSubscription := { topic := "t", path := some "/x" }

/-- A document with a top-level arn destination and one path-only record:
an arn destination is in effect for the record and the record has a path. -/
def exampleArnTopPathRecord : WebhooksConfig :=
  { arn := some "arn:aws:events:us-west-2::event-source/aws.partner/shopify.com/1234/p"
    subscriptions := [pathOnlyRecord] }

/-- C2 counterexample: with a top-level arn destination in effect and a record
carrying a path, validation fails with `PathMissingEndpoint` — not with the
path-with-incompatible-destination error — because the endpoint-URL check at
source line 198 runs before the arn/pubsub check at line 208. -/
theorem path_with_arn_not_incompatible_error :
    truthy pathOnlyRecord.path = true
    ∧ truthy exampleArnTopPathRecord.arn = true
    ∧ isPathIncompatIssue (webhooksValidate exampleArnTopPathRecord) = false
    ∧ webhooksValidate exampleArnTopPathRecord = some (.PathMissingEndpointSub 0) := by
  decide

/-- A record with a path and a record-level arn destination. -/
def pathArnRecord : WebhookSubscription :=
  { topic := "t"
    arn := some "arn:aws:events:eu-west-1::event-source/aws.partner/shopify.com/1/src"
    path := some "/x" }

/-- A document with a top-level endpoint URL and one record combining an arn
destination with a path. -/
def examplePathIncompat : WebhooksConfig :=
  { subscription_endpoint_url := some "https://top.example.com"
    subscriptions := [pathArnRecord] }

/-- C2 amended: a record with a truthy path and a record-level arn or pubsub
project fails with the path-with-incompatible-destination error only when an
endpoint URL is also truthy at some level (otherwise the `PathMissingEndpoint`
check fires first); under those conditions, and with the record's earlier
pair-completeness and exclusivity checks passing, the per-record validation
step reports `PathWithIncompatibleDestination`. -/
theorem path_with_incompatible_destination_characterised :
    webhooksValidate examplePathIncompat = some (.PathWithIncompatibleDestinationSub 0)
    ∧ ∀ (c : WebhooksConfig) (i : Nat) (s : WebhookSubscription) (seen : List String),
        truthy s.path = true →
        (truthy s.arn = true ∨ truthy s.pubsub_project = true) →
        (truthy c.subscription_endpoint_url = true
          ∨ truthy s.subscription_endpoint_url = true) →
        subCheckA s = false → subCheckB s = false →
        checkSubscription c i s seen = .error (.PathWithIncompatibleDestinationSub i) := by
  refine ⟨by decide, ?_⟩
  intro c i s seen hp hd hu ha hb
  cases hcu : truthy c.subscription_endpoint_url <;>
    cases hsu : truthy s.subscription_endpoint_url <;>
    cases hsp : truthy s.pubsub_project <;>
    cases hst : truthy s.pubsub_topic <;>
    cases hsa : truthy s.arn <;>
    simp_all [checkSubscription, subCheckA, subCheckB, subCheckC, subCheckD, subCheckE,
      subDestCount, countTruthy, List.filter]

/-- Witness for C2 (amended part): the per-record step applied to the example
record with a top-level endpoint URL in effect. -/
theorem path_with_incompatible_destination_witness :
    checkSubscription examplePathIncompat 0 pathArnRecord [] =
      .error (.PathWithIncompatibleDestinationSub 0) :=
  path_with_incompatible_destination_characterised.2 examplePathIncompat 0 pathArnRecord []
    (by decide) (Or.inl (by decide)) (Or.inl (by decide)) (by decide) (by decide)

/-- A record declaring `pubsub_project` and `arn` but no `pubsub_topic`. -/
def projArnRecord : WebhookSubscription :=
  { topic := "t", pubsub_project := some "p", arn := some "arn:x" }

/-- A document whose only record declares `pubsub_project` and `arn`. -/
def exampleProjArn : WebhooksConfig := { subscriptions := [projArnRecord] }

/-- C3 counterexample: a record declaring both `pubsub_project` and `arn` but
not `pubsub_topic` fails with the incomplete-pubsub-pair error, not the
destination-exclusivity error, because the pair-completeness check at source
line 167 runs before the exclusivity check at line 177. -/
theorem project_and_arn_not_exclusivity_error :
    truthy projArnRecord.pubsub_project = true
    ∧ truthy projArnRecord.arn = true
    ∧ isMultipleDestIssue (webhooksValidate exampleProjArn) = false
    ∧ webhooksValidate exampleProjArn = some (.IncompletePubSubPairSub 0) := by
  decide

/-- A record declaring the full pubsub pair and an arn. -/
def fullPubsubArnRecord : WebhookSubscription :=
  { topic := "t", pubsub_project := some "p", pubsub_topic := some "pt", arn := some "arn:x" }

/-- A document whose only record declares the full pubsub pair and an arn. -/
def exampleFullPubsubArn : WebhooksConfig := { subscriptions := [fullPubsubArnRecord] }

/-- C3 amended: a record declaring both `pubsub_project` and `arn` fails with
the destination-exclusivity error (`MultipleDestinations`) only when
`pubsub_topic` is also set (making the pubsub pair complete); with the pair
complete and an arn present, the per-record validation step reports
`MultipleDestinations` regardless of the record's other fields. -/
theorem project_topic_arn_exclusivity_error :
    webhooksValidate exampleFullPubsubArn = some (.MultipleDestinationsSub 0)
    ∧ ∀ (c : WebhooksConfig) (i : Nat) (s : WebhookSubscription) (seen : List String),
        truthy s.pubsub_project = true → truthy s.pubsub_topic = true →
        truthy s.arn = true →
        checkSubscription c i s seen = .error (.MultipleDestinationsSub i) := by
  refine ⟨by decide, ?_⟩
  intro c i s seen hsp hst hsa
  cases hsu : truthy s.subscription_endpoint_url <;>
    simp_all [checkSubscription, subCheckA, subCheckB, subDestCount, countTruthy, List.filter]

/-- Witness for C3 (amended part): the per-record step applied to the record
with a complete pubsub pair and an arn. -/
theorem project_topic_arn_exclusivity_witness :
    checkSubscription exampleFullPubsubArn 0 fullPubsubArnRecord [] =
      .error (.MultipleDestinationsSub 0) :=
  project_topic_arn_exclusivity_error.2 exampleFullPubsubArn 0 fullPubsubArnRecord []
    (by decide) (by decide) (by decide)

/-- A document whose only record has a path and no destination anywhere. -/
def examplePathNoDest : WebhooksConfig := { subscriptions := [pathOnlyRecord] }

/-- C4 counterexample: a record with a path and no endpoint-URL destination in
scope fails with `MissingDestination` — not `PathMissingEndpoint` — when no
destination of any form is in scope, because the missing-destination check at
source line 188 runs before the path check at line 198. -/
theorem path_without_any_destination_not_path_error :
    truthy pathOnlyRecord.path = true
    ∧ truthy examplePathNoDest.subscription_endpoint_url = false
    ∧ truthy pathOnlyRecord.subscription_endpoint_url = false
    ∧ isPathMissingEndpointIssue (webhooksValidate examplePathNoDest) = false
    ∧ webhooksValidate examplePathNoDest = some (.MissingDestinationSub 0) := by
  decide

/-- C4 amended: a record with a truthy path and no truthy endpoint URL at
either level fails with `PathMissingEndpoint` provided some destination is in
scope (a top-level destination or a record-level non-URL destination) — with
no destination at all the `MissingDestination` check fires first — and the
record's pair-completeness and exclusivity checks pass. -/
theorem path_missing_endpoint_characterised :
    webhooksValidate exampleArnTopPathRecord = some (.PathMissingEndpointSub 0)
    ∧ ∀ (c : WebhooksConfig) (i : Nat) (s : WebhookSubscription) (seen : List String),
        truthy s.path = true →
        truthy c.subscription_endpoint_url = false →
        truthy s.subscription_endpoint_url = false →
        subCheckA s = false → subCheckB s = false →
        (topLevelDestCount c ≠ 0 ∨ subDestCount s ≠ 0) →
        checkSubscription c i s seen = .error (.PathMissingEndpointSub i) := by
  refine ⟨by decide, ?_⟩
  intro c i s seen hp hcu hsu ha hb hd
  simp only [checkSubscription, subCheckA, subCheckB, subCheckC, subCheckD] at *
  have hcfalse : (topLevelDestCount c == 0 && subDestCount s == 0) = false := by
    rcases hd with h | h <;> simp [h]
  simp [ha, hb, hcfalse, hcu, hsu, hp]

/-- Witness for C4 (amended part): the per-record step applied to the
path-only record under the top-level arn document. -/
theorem path_missing_endpoint_witness :
    checkSubscription exampleArnTopPathRecord 0 pathOnlyRecord [] =
      .error (.PathMissingEndpointSub 0) :=
  path_missing_endpoint_characterised.2 exampleArnTopPathRecord 0 pathOnlyRecord []
    (by decide) (by decide) (by decide) (by decide) (by decide) (Or.inl (by decide))

/-- Specification-side description, following the spec's documented check
order: all constraint violations of one record, in the order checks a–e and
then the duplicate-key check are documented, with no short-circuiting. -/
def recordViolations (c : WebhooksConfig) (i : Nat) (s : WebhookSubscription)
    (seen : List String) : List WebhookIssue :=
  (if subCheckA s then [.IncompletePubSubPairSub i] else [])
    ++ (if subCheckB s then [.MultipleDestinationsSub i] else [])
    ++ (if subCheckC c s then [.MissingDestinationSub i] else [])
    ++ (if subCheckD c s then [.PathMissingEndpointSub i] else [])
    ++ (if subCheckE s then [.PathWithIncompatibleDestinationSub i] else [])
    ++ (if subscriptionKey c s ∈ seen then [.DuplicateSubscriptionSub i s.topic] else [])

/-- Specification-side description: all violations of all records in record
order, every record's key being registered whether or not it violates rules. -/
def subsViolations (c : WebhooksConfig) :
    Nat → List WebhookSubscription → List String → List WebhookIssue
  | _, [], _ => []
  | i, s :: rest, seen =>
    recordViolations c i s seen
      ++ subsViolations c (i + 1) rest (subscriptionKey c s :: seen)

/-- Specification-side description: all duplicate-topic violations of the
top-level topics list, in topic order. -/
def topicsViolations (c : WebhooksConfig) : List String → List String → List WebhookIssue
  | [], _ => []
  | t :: ts, seen =>
    (if topicKey c t ∈ seen then [.DuplicateSubscriptionTopic t] else [])
      ++ topicsViolations c ts (topicKey c t :: seen)

/-- Specification-side description of the documented check order (§4.3): the
aggregated list of every constraint violation of a document — pair
completeness, top-level exclusivity, destination-without-topics,
topics-without-destination, top-level duplicate keys, then the per-record
checks in record order. -/
def webhookViolationsSpec (c : WebhooksConfig) : List WebhookIssue :=
  (if check1Top c then [.IncompletePubSubPairTop] else [])
    ++ (if check2Top c then [.MultipleDestinationsTop] else [])
    ++ (if check3Top c then [.UnusedDestination] else [])
    ++ (if check4Top c then [.TopicsMissingDestination] else [])
    ++ (if topGuard c then topicsViolations c c.topics [] else [])
    ++ subsViolations c 0 c.subscriptions
        (if topGuard c then (c.topics.map (topicKey c)).reverse else [])

lemma topicsViolations_addTopicKeys (c : WebhooksConfig) : ∀ (ts seen : List String),
    (topicsViolations c ts seen = []
      ∧ addTopicKeys c ts seen = .ok ((ts.map (topicKey c)).reverse ++ seen))
    ∨ (∃ e, addTopicKeys c ts seen = .error e
        ∧ (topicsViolations c ts seen).head? = some e) := by
  intro ts
  induction ts with
  | nil => intro seen; left; exact ⟨rfl, by simp [addTopicKeys]⟩
  | cons t ts ih =>
    intro seen
    by_cases hmem : topicKey c t ∈ seen
    · right
      refine ⟨.DuplicateSubscriptionTopic t, ?_, ?_⟩
      · rw [addTopicKeys, if_pos hmem]
      · simp [topicsViolations, hmem]
    · rcases ih (topicKey c t :: seen) with ⟨hv, hok⟩ | ⟨e, herr, hh⟩
      · left
        refine ⟨by simp [topicsViolations, hmem, hv], ?_⟩
        rw [addTopicKeys, if_neg hmem, hok]
        simp
      · right
        refine ⟨e, by rw [addTopicKeys, if_neg hmem]; exact herr, ?_⟩
        simp [topicsViolations, hmem, hh]

lemma recordViolations_checkSubscription (c : WebhooksConfig) (i : Nat)
    (s : WebhookSubscription) (seen : List String) :
    (recordViolations c i s seen = []
      ∧ checkSubscription c i s seen = .ok (subscriptionKey c s :: seen))
    ∨ (∃ e, checkSubscription c i s seen = .error e
        ∧ (recordViolations c i s seen).head? = some e) := by
  by_cases hA : subCheckA s
  · exact Or.inr ⟨.IncompletePubSubPairSub i, by simp [checkSubscription, hA],
      by simp [recordViolations, hA]⟩
  by_cases hB : subCheckB s
  · exact Or.inr ⟨.MultipleDestinationsSub i, by simp [checkSubscription, hA, hB],
      by simp [recordViolations, hA, hB]⟩
  by_cases hC : subCheckC c s
  · exact Or.inr ⟨.MissingDestinationSub i, by simp [checkSubscription, hA, hB, hC],
      by simp [recordViolations, hA, hB, hC]⟩
  by_cases hD : subCheckD c s
  · exact Or.inr ⟨.PathMissingEndpointSub i, by simp [checkSubscription, hA, hB, hC, hD],
      by simp [recordViolations, hA, hB, hC, hD]⟩
  by_cases hE : subCheckE s
  · exact Or.inr ⟨.PathWithIncompatibleDestinationSub i,
      by simp [checkSubscription, hA, hB, hC, hD, hE],
      by simp [recordViolations, hA, hB, hC, hD, hE]⟩
  by_cases hmem : subscriptionKey c s ∈ seen
  · exact Or.inr ⟨.DuplicateSubscriptionSub i s.topic,
      by simp [checkSubscription, hA, hB, hC, hD, hE, hmem],
      by simp [recordViolations, hA, hB, hC, hD, hE, hmem]⟩
  · exact Or.inl ⟨by simp [recordViolations, hA, hB, hC, hD, hE, hmem],
      by simp [checkSubscription, hA, hB, hC, hD, hE, hmem]⟩

lemma subsViolations_checkSubscriptions (c : WebhooksConfig) :
    ∀ (subs : List WebhookSubscription) (i : Nat) (seen : List String),
    checkSubscriptions c i subs seen = (subsViolations c i subs seen).head? := by
  intro subs
  induction subs with
  | nil => intro i seen; simp [checkSubscriptions, subsViolations]
  | cons s rest ih =>
    intro i seen
    rcases recordViolations_checkSubscription c i s seen with ⟨hv, hc⟩ | ⟨e, hc, hh⟩
    · rw [checkSubscriptions, hc]
      simp [subsViolations, hv, ih]
    · rw [checkSubscriptions, hc]
      cases hl : recordViolations c i s seen with
      | nil => rw [hl] at hh; simp at hh
      | cons a l =>
        rw [hl] at hh
        simp only [List.head?_cons, Option.some.injEq] at hh
        subst hh
        simp [subsViolations, hl]

/-- A document violating three rules at once: an incomplete top-level pubsub
pair and a record with a path but no destination anywhere. -/
def exampleMultiViolation : WebhooksConfig :=
  { pubsub_project := some "p", subscriptions := [pathOnlyRecord] }

/-- C5: constraint validation is fail-fast — for every document the validator
returns the head of the aggregated, documented-order violation list (so
success exactly when no rule is violated, and otherwise exactly the first
violation, never an aggregated list); the example document violates three
rules yet the validator reports only the first. -/
theorem validator_returns_first_violation :
    (webhookViolationsSpec exampleMultiViolation).length = 3
    ∧ webhooksValidate exampleMultiViolation = some .IncompletePubSubPairTop
    ∧ ∀ c : WebhooksConfig, webhooksValidate c = (webhookViolationsSpec c).head? := by
  refine ⟨by decide, by decide, ?_⟩
  intro c
  rw [webhooksValidate, webhookViolationsSpec]
  by_cases h1 : check1Top c
  · simp [h1]
  by_cases h2 : check2Top c
  · simp [h1, h2]
  by_cases h3 : check3Top c
  · simp [h1, h2, h3]
  by_cases h4 : check4Top c
  · simp [h1, h2, h3, h4]
  simp only [h1, h2, h3, h4, if_false, List.nil_append]
  by_cases hg : topGuard c
  · rcases topicsViolations_addTopicKeys c c.topics [] with ⟨hv, hok⟩ | ⟨e, herr, hh⟩
    · rw [List.append_nil] at hok
      simp [hg, hok, hv, subsViolations_checkSubscriptions]
    · cases hl : topicsViolations c c.topics [] with
      | nil => rw [hl] at hh; simp at hh
      | cons a l =>
        rw [hl] at hh
        simp only [List.head?_cons, Option.some.injEq] at hh
        subst hh
        simp [hg, herr, hl]
  · simp [hg, subsViolations_checkSubscriptions]

/-- A parsed configuration value (the `unknown` values `elementwiseRewrite`
walks): null, scalars, arrays and objects as ordered key/value lists. -/
inductive JValue where
  | null
  | bool (b : Bool)
  | num (n : Int)
  | str (s : String)
  | arr (elements : List JValue)
  | obj (fields : List (String × JValue))

/-- The zod schema shapes `elementwiseRewrite` distinguishes by
`instanceof`: optional/nullable wrappers, arrays, objects with their
declaration-ordered shape, and scalar leaves (the fall-through case). -/
inductive SchemaNode where
  | scalar
  | optional (inner : SchemaNode)
  | nullable (inner : SchemaNode)
  | array (element : SchemaNode)
  | object (shape : List (String × SchemaNode))
deriving Repr

/-- JS property access on an object literal: the first binding of the key. -/
def lookupField {α : Type} : List (String × α) → String → Option α
  | [], _ => none
  | (k, v) :: rest, key => if k = key then some v else lookupField rest key

/-- The prune test
`resultObj[key] instanceof Object && Object.keys(resultObj[key]).length === 0`:
true for empty objects and empty arrays (a JS array is an `Object`, and an
empty one has no enumerable keys). -/
def isEmptyVal : JValue → Bool
  | .obj [] => true
  | .arr [] => true
  | _ => false

mutual

/-- Reference model of the rewriter with independent array elements: unwrap
optional/nullable wrappers, map arrays elementwise each with its own fresh
accumulator, rebuild objects by walking the schema shape in declaration order
keeping only keys present in the config and deleting keys whose rewritten
value is an empty object or array, and return anything else (the scalar
fall-through) unchanged. This is *not* the source function: the source's
array branch (`link.ts:95`) forwards one shared `result` accumulator to every
element. `rewriteConfiguration` below embeds that shared-accumulator
behaviour, and `rewriteConfiguration_plain_agree` shows the two agree exactly
on schemas whose arrays never touch the accumulator. -/
def elementwiseRewrite : SchemaNode → JValue → Option JValue
  | .optional inner, v => elementwiseRewrite inner v
  | .nullable inner, v => elementwiseRewrite inner v
  | .array elem, .arr xs => (elementwiseElems elem xs).map JValue.arr
  | .array _, _ => none
  | .object shape, .obj fields => (rewriteFields shape fields).map JValue.obj
  | .object _, .null => none
  | .object _, _ => some (JValue.obj [])
  | .scalar, v => some v
termination_by sch _ => (sizeOf sch, 0)

/-- Elementwise array rewriting of the reference model: each element gets an
independent rewrite (unlike the source's shared accumulator). -/
def elementwiseElems : SchemaNode → List JValue → Option (List JValue)
  | _, [] => some []
  | sch, v :: vs =>
    match elementwiseRewrite sch v, elementwiseElems sch vs with
    | some w, some ws => some (w :: ws)
    | _, _ => none
termination_by sch vs => (sizeOf sch, sizeOf vs)

/-- The field walk of the reference model over `Object.entries(schema.shape)`
starting from an empty accumulator: keep each declared key present in the
config, rewriting its value, and delete it again when the rewritten value is
an empty object or array. `processFields_plain` below relates it to the
source's accumulator-threading walk `processFields`. -/
def rewriteFields : List (String × SchemaNode) → List (String × JValue) →
    Option (List (String × JValue))
  | [], _ => some []
  | (k, sub) :: rest, cfg =>
    match lookupField cfg k with
    | none => rewriteFields rest cfg
    | some v =>
      match elementwiseRewrite sub v, rewriteFields rest cfg with
      | some w, some tail => some (if isEmptyVal w then tail else (k, w) :: tail)
      | _, _ => none
termination_by shape _ => (sizeOf shape, 0)

end

mutual

/-- A well-formed zod schema: at every object node the declared keys are
pairwise distinct (as `Object.entries` of a `ZodObject` shape always are). -/
def SchemaWF : SchemaNode → Bool
  | .scalar => true
  | .optional inner => SchemaWF inner
  | .nullable inner => SchemaWF inner
  | .array elem => SchemaWF elem
  | .object shape => shapeWF shape
termination_by sch => (sizeOf sch, 0)

/-- Well-formedness of an object shape: fresh, pairwise-distinct keys and
well-formed sub-schemas. -/
def shapeWF : List (String × SchemaNode) → Bool
  | [] => true
  | (k, sub) :: rest =>
    !(decide (k ∈ rest.map Prod.fst)) && SchemaWF sub && shapeWF rest
termination_by shape => (sizeOf shape, 0)

end

lemma lookupField_eq_none {α : Type} : ∀ (cfg : List (String × α)) (k : String),
    k ∉ cfg.map Prod.fst → lookupField cfg k = none := by
  intro cfg k h
  induction cfg with
  | nil => rfl
  | cons p rest ih =>
    obtain ⟨k', v⟩ := p
    simp only [List.map_cons, List.mem_cons, not_or] at h
    rw [lookupField, if_neg (fun he => h.1 (by simp [he]))]
    exact ih h.2

lemma rewriteFields_nil_cfg : ∀ shape : List (String × SchemaNode),
    rewriteFields shape [] = some [] := by
  intro shape
  induction shape with
  | nil => simp [rewriteFields]
  | cons p rest ih =>
    obtain ⟨k, sub⟩ := p
    simp [rewriteFields, lookupField, ih]

lemma rewriteFields_keys : ∀ (shape : List (String × SchemaNode))
    (cfg out : List (String × JValue)), rewriteFields shape cfg = some out →
    ∀ k, k ∈ out.map Prod.fst → k ∈ shape.map Prod.fst := by
  intro shape
  induction shape with
  | nil =>
    intro cfg out h k hk
    simp only [rewriteFields, Option.some.injEq] at h
    subst h
    simp at hk
  | cons p rest ih =>
    obtain ⟨k0, sub⟩ := p
    intro cfg out h k hk
    cases hl : lookupField cfg k0 with
    | none =>
      simp only [rewriteFields, hl] at h
      exact List.mem_cons_of_mem _ (ih cfg out h k hk)
    | some v =>
      simp only [rewriteFields, hl] at h
      cases hw : elementwiseRewrite sub v with
      | none => simp [hw] at h
      | some w =>
        cases ht : rewriteFields rest cfg with
        | none => simp [hw, ht] at h
        | some tail =>
          simp only [hw, ht, Option.some.injEq] at h
          by_cases he : isEmptyVal w
          · rw [if_pos he] at h
            subst h
            exact List.mem_cons_of_mem _ (ih cfg tail ht k hk)
          · rw [if_neg he] at h
            subst h
            simp only [List.map_cons, List.mem_cons] at hk
            rcases hk with hk | hk
            · simp [hk]
            · exact List.mem_cons_of_mem _ (ih cfg tail ht k hk)

lemma rewriteFields_cons_irrelevant : ∀ (shape : List (String × SchemaNode))
    (k : String) (w : JValue) (cfg : List (String × JValue)),
    k ∉ shape.map Prod.fst →
    rewriteFields shape ((k, w) :: cfg) = rewriteFields shape cfg := by
  intro shape
  induction shape with
  | nil => intro k w cfg _; simp [rewriteFields]
  | cons p rest ih =>
    obtain ⟨k0, sub⟩ := p
    intro k w cfg h
    simp only [List.map_cons, List.mem_cons, not_or] at h
    have hlk : lookupField ((k, w) :: cfg) k0 = lookupField cfg k0 := by
      rw [lookupField, if_neg (fun he => h.1 (by simp [he]))]
    simp only [rewriteFields, hlk, ih k w cfg h.2]

lemma rewriteFields_ext : ∀ (shape : List (String × SchemaNode))
    (cfg cfg' : List (String × JValue)),
    (∀ k, lookupField cfg k = lookupField cfg' k) →
    rewriteFields shape cfg = rewriteFields shape cfg' := by
  intro shape
  induction shape with
  | nil => intro cfg cfg' _; simp [rewriteFields]
  | cons p rest ih =>
    obtain ⟨k0, sub⟩ := p
    intro cfg cfg' h
    simp only [rewriteFields, h k0, ih cfg cfg' h]

mutual

theorem elementwiseRewrite_idem_aux : ∀ (sch : SchemaNode) (v w : JValue),
    SchemaWF sch = true → elementwiseRewrite sch v = some w →
    elementwiseRewrite sch w = some w
  | .scalar, v, w, _, h => by
    simp only [elementwiseRewrite, Option.some.injEq] at h
    subst h
    simp [elementwiseRewrite]
  | .optional inner, v, w, hwf, h => by
    simp only [elementwiseRewrite] at h ⊢
    exact elementwiseRewrite_idem_aux inner v w (by simpa [SchemaWF] using hwf) h
  | .nullable inner, v, w, hwf, h => by
    simp only [elementwiseRewrite] at h ⊢
    exact elementwiseRewrite_idem_aux inner v w (by simpa [SchemaWF] using hwf) h
  | .array elem, v, w, hwf, h => by
    cases v with
    | arr xs =>
      simp only [elementwiseRewrite, Option.map_eq_some'] at h
      obtain ⟨ws, hws, hw⟩ := h
      subst hw
      simp only [elementwiseRewrite, Option.map_eq_some']
      exact ⟨ws, elementwiseElems_idem_aux elem xs ws (by simpa [SchemaWF] using hwf) hws, rfl⟩
    | null => simp [elementwiseRewrite] at h
    | bool b => simp [elementwiseRewrite] at h
    | num n => simp [elementwiseRewrite] at h
    | str s => simp [elementwiseRewrite] at h
    | obj fields => simp [elementwiseRewrite] at h
  | .object shape, v, w, hwf, h => by
    have hshape : shapeWF shape = true := by simpa [SchemaWF] using hwf
    cases v with
    | obj fields =>
      simp only [elementwiseRewrite, Option.map_eq_some'] at h
      obtain ⟨out, hout, hw⟩ := h
      subst hw
      simp only [elementwiseRewrite, Option.map_eq_some']
      exact ⟨out, rewriteFields_idem_aux shape fields out hshape hout, rfl⟩
    | null => simp [elementwiseRewrite] at h
    | bool b =>
      simp only [elementwiseRewrite, Option.some.injEq] at h
      subst h
      simp [elementwiseRewrite, rewriteFields_nil_cfg]
    | num n =>
      simp only [elementwiseRewrite, Option.some.injEq] at h
      subst h
      simp [elementwiseRewrite, rewriteFields_nil_cfg]
    | str s =>
      simp only [elementwiseRewrite, Option.some.injEq] at h
      subst h
      simp [elementwiseRewrite, rewriteFields_nil_cfg]
    | arr xs =>
      simp only [elementwiseRewrite, Option.some.injEq] at h
      subst h
      simp [elementwiseRewrite, rewriteFields_nil_cfg]
termination_by sch _ _ => (sizeOf sch, 0)

theorem elementwiseElems_idem_aux : ∀ (sch : SchemaNode) (vs ws : List JValue),
    SchemaWF sch = true → elementwiseElems sch vs = some ws →
    elementwiseElems sch ws = some ws
  | sch, [], ws, _, h => by
    simp only [elementwiseElems, Option.some.injEq] at h
    subst h
    simp [elementwiseElems]
  | sch, v :: vs, ws, hwf, h => by
    cases hv : elementwiseRewrite sch v with
    | none => simp [elementwiseElems, hv] at h
    | some w =>
      cases hrest : elementwiseElems sch vs with
      | none => simp [elementwiseElems, hv, hrest] at h
      | some ws' =>
        simp only [elementwiseElems, hv, hrest, Option.some.injEq] at h
        subst h
        simp only [elementwiseElems, elementwiseRewrite_idem_aux sch v w hwf hv,
          elementwiseElems_idem_aux sch vs ws' hwf hrest]
termination_by sch vs _ => (sizeOf sch, sizeOf vs)

theorem rewriteFields_idem_aux : ∀ (shape : List (String × SchemaNode))
    (cfg out : List (String × JValue)), shapeWF shape = true →
    rewriteFields shape cfg = some out → rewriteFields shape out = some out
  | [], cfg, out, _, h => by
    simp only [rewriteFields, Option.some.injEq] at h
    subst h
    simp [rewriteFields]
  | (k, sub) :: rest, cfg, out, hwf, h => by
    simp only [shapeWF, Bool.and_eq_true, Bool.not_eq_true', decide_eq_false_iff_not] at hwf
    obtain ⟨⟨hknot, hsub⟩, hrest⟩ := hwf
    cases hl : lookupField cfg k with
    | none =>
      simp only [rewriteFields, hl] at h
      have hlk : lookupField out k = none :=
        lookupField_eq_none out k (fun hmem => hknot (rewriteFields_keys rest cfg out h k hmem))
      simp only [rewriteFields, hlk]
      exact rewriteFields_idem_aux rest cfg out hrest h
    | some v =>
      simp only [rewriteFields, hl] at h
      cases hw : elementwiseRewrite sub v with
      | none => simp [hw] at h
      | some w =>
        cases ht : rewriteFields rest cfg with
        | none => simp [hw, ht] at h
        | some tail =>
          simp only [hw, ht, Option.some.injEq] at h
          have htail_idem := rewriteFields_idem_aux rest cfg tail hrest ht
          by_cases he : isEmptyVal w
          · rw [if_pos he] at h
            subst h
            have hlk : lookupField tail k = none :=
              lookupField_eq_none tail k
                (fun hmem => hknot (rewriteFields_keys rest cfg tail ht k hmem))
            simp only [rewriteFields, hlk]
            exact htail_idem
          · rw [if_neg he] at h
            subst h
            have hwidem := elementwiseRewrite_idem_aux sub v w hsub hw
            have hsame : rewriteFields rest ((k, w) :: tail) = some tail := by
              rw [rewriteFields_cons_irrelevant rest k w tail hknot]
              exact htail_idem
            have hlk : lookupField ((k, w) :: tail) k = some w := by
              simp [lookupField]
            simp [rewriteFields, hlk, hwidem, hsame, he]
termination_by shape _ _ => (sizeOf shape, 0)

end

mutual

/-- The output-shape invariant of the rewriter: at every object node of the
result the emitted keys form an in-order subsequence of the schema's declared
keys (so fields appear in schema declaration order), and no emitted field
value is an empty object or empty array. -/
def canonicalValue : SchemaNode → JValue → Bool
  | .optional inner, v => canonicalValue inner v
  | .nullable inner, v => canonicalValue inner v
  | .array elem, .arr xs => canonicalElems elem xs
  | .array _, _ => false
  | .object shape, .obj fields => canonicalFields shape fields
  | .object _, _ => false
  | .scalar, _ => true
termination_by sch _ => (sizeOf sch, 0)

/-- `canonicalValue` for every element of an array. -/
def canonicalElems : SchemaNode → List JValue → Bool
  | _, [] => true
  | sch, v :: vs => canonicalValue sch v && canonicalElems sch vs
termination_by sch vs => (sizeOf sch, sizeOf vs)

/-- Ordered-subsequence matching of emitted fields against the schema shape:
each emitted key must match a schema key, in declaration order, with a
non-empty canonical value. -/
def canonicalFields : List (String × SchemaNode) → List (String × JValue) → Bool
  | _, [] => true
  | [], _ :: _ => false
  | (k, sub) :: rest, (k', w) :: out =>
    if k' = k then !isEmptyVal w && canonicalValue sub w && canonicalFields rest out
    else canonicalFields rest ((k', w) :: out)
termination_by shape _ => (sizeOf shape, 0)

end

mutual

theorem elementwiseRewrite_canonical_aux : ∀ (sch : SchemaNode) (v w : JValue),
    SchemaWF sch = true → elementwiseRewrite sch v = some w →
    canonicalValue sch w = true
  | .scalar, v, w, _, h => by
    simp [canonicalValue]
  | .optional inner, v, w, hwf, h => by
    simp only [elementwiseRewrite] at h
    simp only [canonicalValue]
    exact elementwiseRewrite_canonical_aux inner v w (by simpa [SchemaWF] using hwf) h
  | .nullable inner, v, w, hwf, h => by
    simp only [elementwiseRewrite] at h
    simp only [canonicalValue]
    exact elementwiseRewrite_canonical_aux inner v w (by simpa [SchemaWF] using hwf) h
  | .array elem, v, w, hwf, h => by
    cases v with
    | arr xs =>
      simp only [elementwiseRewrite, Option.map_eq_some'] at h
      obtain ⟨ws, hws, hw⟩ := h
      subst hw
      simp only [canonicalValue]
      exact elementwiseElems_canonical_aux elem xs ws (by simpa [SchemaWF] using hwf) hws
    | null => simp [elementwiseRewrite] at h
    | bool b => simp [elementwiseRewrite] at h
    | num n => simp [elementwiseRewrite] at h
    | str s => simp [elementwiseRewrite] at h
    | obj fields => simp [elementwiseRewrite] at h
  | .object shape, v, w, hwf, h => by
    have hshape : shapeWF shape = true := by simpa [SchemaWF] using hwf
    cases v with
    | obj fields =>
      simp only [elementwiseRewrite, Option.map_eq_some'] at h
      obtain ⟨out, hout, hw⟩ := h
      subst hw
      simp only [canonicalValue]
      exact rewriteFields_canonical_aux shape fields out hshape hout
    | null => simp [elementwiseRewrite] at h
    | bool b =>
      simp only [elementwiseRewrite, Option.some.injEq] at h
      subst h
      simp [canonicalValue, canonicalFields]
    | num n =>
      simp only [elementwiseRewrite, Option.some.injEq] at h
      subst h
      simp [canonicalValue, canonicalFields]
    | str s =>
      simp only [elementwiseRewrite, Option.some.injEq] at h
      subst h
      simp [canonicalValue, canonicalFields]
    | arr xs =>
      simp only [elementwiseRewrite, Option.some.injEq] at h
      subst h
      simp [canonicalValue, canonicalFields]
termination_by sch _ _ => (sizeOf sch, 0)

theorem elementwiseElems_canonical_aux : ∀ (sch : SchemaNode) (vs ws : List JValue),
    SchemaWF sch = true → elementwiseElems sch vs = some ws →
    canonicalElems sch ws = true
  | sch, [], ws, _, h => by
    simp only [elementwiseElems, Option.some.injEq] at h
    subst h
    simp [canonicalElems]
  | sch, v :: vs, ws, hwf, h => by
    cases hv : elementwiseRewrite sch v with
    | none => simp [elementwiseElems, hv] at h
    | some w =>
      cases hrest : elementwiseElems sch vs with
      | none => simp [elementwiseElems, hv, hrest] at h
      | some ws' =>
        simp only [elementwiseElems, hv, hrest, Option.some.injEq] at h
        subst h
        simp only [canonicalElems, Bool.and_eq_true]
        exact ⟨elementwiseRewrite_canonical_aux sch v w hwf hv,
          elementwiseElems_canonical_aux sch vs ws' hwf hrest⟩
termination_by sch vs _ => (sizeOf sch, sizeOf vs)

theorem rewriteFields_canonical_aux : ∀ (shape : List (String × SchemaNode))
    (cfg out : List (String × JValue)), shapeWF shape = true →
    rewriteFields shape cfg = some out → canonicalFields shape out = true
  | [], cfg, out, _, h => by
    simp only [rewriteFields, Option.some.injEq] at h
    subst h
    simp [canonicalFields]
  | (k, sub) :: rest, cfg, out, hwf, h => by
    simp only [shapeWF, Bool.and_eq_true, Bool.not_eq_true', decide_eq_false_iff_not] at hwf
    obtain ⟨⟨hknot, hsub⟩, hrest⟩ := hwf
    have skip : ∀ out' : List (String × JValue),
        (∀ k', k' ∈ out'.map Prod.fst → k' ∈ rest.map Prod.fst) →
        canonicalFields rest out' = true →
        canonicalFields ((k, sub) :: rest) out' = true := by
      intro out' hkeys hcan
      cases out' with
      | nil => simp [canonicalFields]
      | cons p out'' =>
        obtain ⟨k', w'⟩ := p
        have hne : k' ≠ k := fun he =>
          hknot (he ▸ hkeys k' (by simp))
        simp only [canonicalFields, if_neg hne]
        exact hcan
    cases hl : lookupField cfg k with
    | none =>
      simp only [rewriteFields, hl] at h
      exact skip out (fun k' hm => rewriteFields_keys rest cfg out h k' hm)
        (rewriteFields_canonical_aux rest cfg out hrest h)
    | some v =>
      simp only [rewriteFields, hl] at h
      cases hw : elementwiseRewrite sub v with
      | none => simp [hw] at h
      | some w =>
        cases ht : rewriteFields rest cfg with
        | none => simp [hw, ht] at h
        | some tail =>
          simp only [hw, ht, Option.some.injEq] at h
          by_cases he : isEmptyVal w
          · rw [if_pos he] at h
            subst h
            exact skip tail (fun k' hm => rewriteFields_keys rest cfg tail ht k' hm)
              (rewriteFields_canonical_aux rest cfg tail hrest ht)
          · rw [if_neg he] at h
            subst h
            have h1 : isEmptyVal w = false := by simp [he]
            simp [canonicalFields, h1,
              elementwiseRewrite_canonical_aux sub v w hsub hw,
              rewriteFields_canonical_aux rest cfg tail hrest ht]
termination_by shape _ _ => (sizeOf shape, 0)

end

/-- The value a `rewriteConfiguration` branch returns, relative to the
accumulator region it runs in: a value independent of the accumulator
(`pure`, the scalar fall-through returning `config`), a reference to the
shared accumulator object itself (`accRef`, what the object branch returns),
or an array whose slots may reference the accumulator. -/
inductive RValue where
  | pure (v : JValue)
  | accRef
  | arr (elements : List RValue)

/-- JS property assignment `obj[k] = v`: replace in place when the key exists
(keeping its insertion position), else append at the end. -/
def setKey : List (String × JValue) → String → JValue → List (String × JValue)
  | [], k, v => [(k, v)]
  | (k0, v0) :: rest, k, v =>
    if k0 = k then (k0, v) :: rest else (k0, v0) :: setKey rest k v

/-- JS `delete obj[k]`: remove the key's binding (keys are unique in a JS
object, so removing the first binding suffices). -/
def deleteKey : List (String × JValue) → String → List (String × JValue)
  | [], _ => []
  | (k0, v0) :: rest, k =>
    if k0 = k then rest else (k0, v0) :: deleteKey rest k

mutual

/-- Substitute the final contents of an accumulator region for the references
to it, yielding the value observable once the region can no longer change. -/
def resolveR : RValue → List (String × JValue) → JValue
  | .pure v, _ => v
  | .accRef, acc => .obj acc
  | .arr xs, acc => .arr (resolveRList xs acc)
termination_by r _ => sizeOf r

/-- `resolveR` on every slot of an array. -/
def resolveRList : List RValue → List (String × JValue) → List JValue
  | [], _ => []
  | r :: rs, acc => resolveR r acc :: resolveRList rs acc
termination_by rs _ => sizeOf rs

end

/-- The schema contains an object node reachable through only
optional/nullable wrappers and array elements — rewriting against it can
read or write the accumulator passed in. -/
def touchesAcc : SchemaNode → Bool
  | .scalar => false
  | .optional inner => touchesAcc inner
  | .nullable inner => touchesAcc inner
  | .array elem => touchesAcc elem
  | .object _ => true

mutual

/-- Schemas whose array element schemas never touch the accumulator: for
these the `result` object the source's array branch forwards to every element
(`link.ts:95`) is never written, so no sharing between siblings occurs. -/
def plainSchema : SchemaNode → Bool
  | .scalar => true
  | .optional inner => plainSchema inner
  | .nullable inner => plainSchema inner
  | .array elem => !touchesAcc elem && plainSchema elem
  | .object shape => plainShape shape
termination_by sch => (sizeOf sch, 0)

/-- `plainSchema` for every declared field of an object shape. -/
def plainShape : List (String × SchemaNode) → Bool
  | [] => true
  | (_, sub) :: rest => plainSchema sub && plainShape rest
termination_by shape => (sizeOf shape, 0)

end

mutual

/-- `rewriteConfiguration(schema, config, result)` from `link.ts`, with the
threaded `result` object made explicit: returns the branch's return value as
an `RValue` over the current accumulator region together with the region's
updated contents. The array branch forwards the *same* accumulator to every
element (`link.ts:95`), so object-typed elements alias it and merge into it;
the object branch mutates the accumulator and returns a reference to it (so
a non-object, non-null config leaves it untouched and still returns the
reference); `none` embeds a thrown `TypeError` (calling `.map` on a
non-array, or property access on `null`). -/
def rewriteWithAcc : SchemaNode → JValue → List (String × JValue) →
    Option (RValue × List (String × JValue))
  | .optional inner, v, acc => rewriteWithAcc inner v acc
  | .nullable inner, v, acc => rewriteWithAcc inner v acc
  | .array elem, .arr xs, acc =>
    (rewriteItems elem xs acc).map (fun p => (.arr p.1, p.2))
  | .array _, _, _ => none
  | .object shape, .obj fields, acc =>
    (processFields shape fields acc).map (fun acc' => (.accRef, acc'))
  | .object _, .null, _ => none
  | .object _, _, acc => some (.accRef, acc)
  | .scalar, v, acc => some (.pure v, acc)
termination_by sch _ _ => (sizeOf sch, 0)

/-- The array branch's `.map` callback applied left to right, threading the
shared accumulator through the elements. -/
def rewriteItems : SchemaNode → List JValue → List (String × JValue) →
    Option (List RValue × List (String × JValue))
  | _, [], acc => some ([], acc)
  | sch, v :: vs, acc =>
    match rewriteWithAcc sch v acc with
    | none => none
    | some (r, acc') =>
      match rewriteItems sch vs acc' with
      | none => none
      | some (rs, acc'') => some (r :: rs, acc'')
termination_by sch vs _ => (sizeOf sch, sizeOf vs)

/-- The `entries.forEach` loop over `Object.entries(schema.shape)` on the
passed accumulator: for each declared key present in the config, rewrite its
value in a fresh region (`rewriteConfiguration(subSchema, confObj[key], {})`,
frozen with `resolveR` since nothing else references that region afterwards),
assign it (`resultObj[key] = …`, keeping the position of an existing key) and
delete it again when the assigned value is an empty object or array. -/
def processFields : List (String × SchemaNode) → List (String × JValue) →
    List (String × JValue) → Option (List (String × JValue))
  | [], _, acc => some acc
  | (k, sub) :: rest, cfg, acc =>
    match lookupField cfg k with
    | none => processFields rest cfg acc
    | some v =>
      match rewriteWithAcc sub v [] with
      | none => none
      | some (r, accSub) =>
        let w := resolveR r accSub
        processFields rest cfg (if isEmptyVal w then deleteKey acc k else setKey acc k w)
termination_by shape _ _ => (sizeOf shape, 0)

end

/-- The rewriter as called by `writeAppConfigurationFile`
(`rewriteConfiguration(AppSchema, configuration, {})`): run the walk with an
empty top-level accumulator and substitute the accumulator's final contents
for the references to it in the returned value. -/
def rewriteConfiguration (sch : SchemaNode) (config : JValue) : Option JValue :=
  (rewriteWithAcc sch config []).map (fun p => resolveR p.1 p.2)

lemma setKey_fresh : ∀ (acc : List (String × JValue)) (k : String) (w : JValue),
    k ∉ acc.map Prod.fst → setKey acc k w = acc ++ [(k, w)] := by
  intro acc k w h
  induction acc with
  | nil => rfl
  | cons p rest ih =>
    obtain ⟨k0, v0⟩ := p
    simp only [List.map_cons, List.mem_cons, not_or] at h
    rw [setKey, if_neg (fun he => h.1 (by simp [he]))]
    simp [ih h.2]

lemma deleteKey_fresh : ∀ (acc : List (String × JValue)) (k : String),
    k ∉ acc.map Prod.fst → deleteKey acc k = acc := by
  intro acc k h
  induction acc with
  | nil => rfl
  | cons p rest ih =>
    obtain ⟨k0, v0⟩ := p
    simp only [List.map_cons, List.mem_cons, not_or] at h
    rw [deleteKey, if_neg (fun he => h.1 (by simp [he]))]
    simp [ih h.2]

lemma processFields_ext : ∀ (shape : List (String × SchemaNode))
    (cfg cfg' acc : List (String × JValue)),
    (∀ k, lookupField cfg k = lookupField cfg' k) →
    processFields shape cfg acc = processFields shape cfg' acc := by
  intro shape
  induction shape with
  | nil => intro cfg cfg' acc _; simp [processFields]
  | cons p rest ih =>
    obtain ⟨k0, sub⟩ := p
    intro cfg cfg' acc h
    cases hl : lookupField cfg' k0 with
    | none =>
      simp only [processFields, h k0, hl]
      exact ih cfg cfg' acc h
    | some v =>
      simp only [processFields, h k0, hl]
      cases hw : rewriteWithAcc sub v [] with
      | none => simp [hw]
      | some p2 =>
        obtain ⟨r, accSub⟩ := p2
        simp only [hw]
        exact ih cfg cfg' _ h

mutual

theorem rewriteWithAcc_accfree : ∀ (sch : SchemaNode), touchesAcc sch = false →
    ∀ (v : JValue) (acc : List (String × JValue)),
      (elementwiseRewrite sch v = none → rewriteWithAcc sch v acc = none)
      ∧ (∀ w, elementwiseRewrite sch v = some w →
          ∃ r, rewriteWithAcc sch v acc = some (r, acc)
            ∧ ∀ acc2, resolveR r acc2 = w)
  | .scalar, _, v, acc => by
    refine ⟨fun h => by simp [elementwiseRewrite] at h, fun w h => ?_⟩
    simp only [elementwiseRewrite, Option.some.injEq] at h
    subst h
    exact ⟨.pure v, by simp [rewriteWithAcc], fun acc2 => by simp [resolveR]⟩
  | .optional inner, ht, v, acc => by
    simp only [touchesAcc] at ht
    simp only [elementwiseRewrite, rewriteWithAcc]
    exact rewriteWithAcc_accfree inner ht v acc
  | .nullable inner, ht, v, acc => by
    simp only [touchesAcc] at ht
    simp only [elementwiseRewrite, rewriteWithAcc]
    exact rewriteWithAcc_accfree inner ht v acc
  | .array elem, ht, v, acc => by
    simp only [touchesAcc] at ht
    cases v with
    | arr xs =>
      constructor
      · intro h
        simp only [elementwiseRewrite, Option.map_eq_none'] at h
        have hnone := (rewriteItems_accfree elem ht xs acc).1 h
        simp [rewriteWithAcc, hnone]
      · intro w h
        simp only [elementwiseRewrite, Option.map_eq_some'] at h
        obtain ⟨ws, hws, hw⟩ := h
        subst hw
        obtain ⟨rs, hrs, hres⟩ := (rewriteItems_accfree elem ht xs acc).2 ws hws
        exact ⟨.arr rs, by simp [rewriteWithAcc, hrs],
          fun acc2 => by simp [resolveR, hres acc2]⟩
    | null =>
      exact ⟨fun _ => by simp [rewriteWithAcc], fun w h => by simp [elementwiseRewrite] at h⟩
    | bool b =>
      exact ⟨fun _ => by simp [rewriteWithAcc], fun w h => by simp [elementwiseRewrite] at h⟩
    | num n =>
      exact ⟨fun _ => by simp [rewriteWithAcc], fun w h => by simp [elementwiseRewrite] at h⟩
    | str s =>
      exact ⟨fun _ => by simp [rewriteWithAcc], fun w h => by simp [elementwiseRewrite] at h⟩
    | obj fields =>
      exact ⟨fun _ => by simp [rewriteWithAcc], fun w h => by simp [elementwiseRewrite] at h⟩
  | .object _, ht, _, _ => by simp [touchesAcc] at ht
termination_by sch _ _ _ => (sizeOf sch, 0)

theorem rewriteItems_accfree : ∀ (sch : SchemaNode), touchesAcc sch = false →
    ∀ (vs : List JValue) (acc : List (String × JValue)),
      (elementwiseElems sch vs = none → rewriteItems sch vs acc = none)
      ∧ (∀ ws, elementwiseElems sch vs = some ws →
          ∃ rs, rewriteItems sch vs acc = some (rs, acc)
            ∧ ∀ acc2, resolveRList rs acc2 = ws)
  | sch, ht, [], acc => by
    refine ⟨fun h => by simp [elementwiseElems] at h, fun ws h => ?_⟩
    simp only [elementwiseElems, Option.some.injEq] at h
    subst h
    exact ⟨[], by simp [rewriteItems], fun acc2 => by simp [resolveRList]⟩
  | sch, ht, v :: vs, acc => by
    cases hv : elementwiseRewrite sch v with
    | none =>
      have hnew := (rewriteWithAcc_accfree sch ht v acc).1 hv
      exact ⟨fun _ => by simp [rewriteItems, hnew],
        fun ws h => by simp [elementwiseElems, hv] at h⟩
    | some w =>
      obtain ⟨r, hr, hres⟩ := (rewriteWithAcc_accfree sch ht v acc).2 w hv
      cases hvs : elementwiseElems sch vs with
      | none =>
        have hnew := (rewriteItems_accfree sch ht vs acc).1 hvs
        exact ⟨fun _ => by simp [rewriteItems, hr, hnew],
          fun ws h => by simp [elementwiseElems, hv, hvs] at h⟩
      | some ws0 =>
        obtain ⟨rs, hrs, hress⟩ := (rewriteItems_accfree sch ht vs acc).2 ws0 hvs
        refine ⟨fun h => by simp [elementwiseElems, hv, hvs] at h, fun ws h => ?_⟩
        simp only [elementwiseElems, hv, hvs, Option.some.injEq] at h
        subst h
        exact ⟨r :: rs, by simp [rewriteItems, hr, hrs],
          fun acc2 => by simp [resolveRList, hres acc2, hress acc2]⟩
termination_by sch _ vs _ => (sizeOf sch, sizeOf vs)

end

mutual

theorem rewriteWithAcc_plain : ∀ (sch : SchemaNode), SchemaWF sch = true →
    plainSchema sch = true → ∀ v : JValue,
      (elementwiseRewrite sch v = none → rewriteWithAcc sch v [] = none)
      ∧ (∀ w, elementwiseRewrite sch v = some w →
          ∃ r acc', rewriteWithAcc sch v [] = some (r, acc') ∧ resolveR r acc' = w)
  | .scalar, _, _, v => by
    refine ⟨fun h => by simp [elementwiseRewrite] at h, fun w h => ?_⟩
    simp only [elementwiseRewrite, Option.some.injEq] at h
    subst h
    exact ⟨.pure v, [], by simp [rewriteWithAcc], by simp [resolveR]⟩
  | .optional inner, hwf, hp, v => by
    simp only [SchemaWF] at hwf
    simp only [plainSchema] at hp
    simp only [elementwiseRewrite, rewriteWithAcc]
    exact rewriteWithAcc_plain inner hwf hp v
  | .nullable inner, hwf, hp, v => by
    simp only [SchemaWF] at hwf
    simp only [plainSchema] at hp
    simp only [elementwiseRewrite, rewriteWithAcc]
    exact rewriteWithAcc_plain inner hwf hp v
  | .array elem, hwf, hp, v => by
    simp only [plainSchema, Bool.and_eq_true, Bool.not_eq_true'] at hp
    obtain ⟨ht, _⟩ := hp
    cases v with
    | arr xs =>
      constructor
      · intro h
        simp only [elementwiseRewrite, Option.map_eq_none'] at h
        have hnone := (rewriteItems_accfree elem ht xs []).1 h
        simp [rewriteWithAcc, hnone]
      · intro w h
        simp only [elementwiseRewrite, Option.map_eq_some'] at h
        obtain ⟨ws, hws, hw⟩ := h
        subst hw
        obtain ⟨rs, hrs, hres⟩ := (rewriteItems_accfree elem ht xs []).2 ws hws
        exact ⟨.arr rs, [], by simp [rewriteWithAcc, hrs], by simp [resolveR, hres []]⟩
    | null =>
      exact ⟨fun _ => by simp [rewriteWithAcc], fun w h => by simp [elementwiseRewrite] at h⟩
    | bool b =>
      exact ⟨fun _ => by simp [rewriteWithAcc], fun w h => by simp [elementwiseRewrite] at h⟩
    | num n =>
      exact ⟨fun _ => by simp [rewriteWithAcc], fun w h => by simp [elementwiseRewrite] at h⟩
    | str s =>
      exact ⟨fun _ => by simp [rewriteWithAcc], fun w h => by simp [elementwiseRewrite] at h⟩
    | obj fields =>
      exact ⟨fun _ => by simp [rewriteWithAcc], fun w h => by simp [elementwiseRewrite] at h⟩
  | .object shape, hwf, hp, v => by
    have hsw : shapeWF shape = true := by simpa [SchemaWF] using hwf
    have hps : plainShape shape = true := by simpa [plainSchema] using hp
    cases v with
    | obj fields =>
      constructor
      · intro h
        simp only [elementwiseRewrite, Option.map_eq_none'] at h
        have hnone := (processFields_plain shape hsw hps fields [] (by simp)).1 h
        simp [rewriteWithAcc, hnone]
      · intro w h
        simp only [elementwiseRewrite, Option.map_eq_some'] at h
        obtain ⟨out, hout, hw⟩ := h
        subst hw
        have hpf := (processFields_plain shape hsw hps fields [] (by simp)).2 out hout
        refine ⟨.accRef, out, ?_, by simp [resolveR]⟩
        simp only [List.nil_append] at hpf
        simp [rewriteWithAcc, hpf]
    | null =>
      exact ⟨fun _ => by simp [rewriteWithAcc], fun w h => by simp [elementwiseRewrite] at h⟩
    | bool b =>
      refine ⟨fun h => by simp [elementwiseRewrite] at h, fun w h => ?_⟩
      simp only [elementwiseRewrite, Option.some.injEq] at h
      subst h
      exact ⟨.accRef, [], by simp [rewriteWithAcc], by simp [resolveR]⟩
    | num n =>
      refine ⟨fun h => by simp [elementwiseRewrite] at h, fun w h => ?_⟩
      simp only [elementwiseRewrite, Option.some.injEq] at h
      subst h
      exact ⟨.accRef, [], by simp [rewriteWithAcc], by simp [resolveR]⟩
    | str s =>
      refine ⟨fun h => by simp [elementwiseRewrite] at h, fun w h => ?_⟩
      simp only [elementwiseRewrite, Option.some.injEq] at h
      subst h
      exact ⟨.accRef, [], by simp [rewriteWithAcc], by simp [resolveR]⟩
    | arr xs =>
      refine ⟨fun h => by simp [elementwiseRewrite] at h, fun w h => ?_⟩
      simp only [elementwiseRewrite, Option.some.injEq] at h
      subst h
      exact ⟨.accRef, [], by simp [rewriteWithAcc], by simp [resolveR]⟩
termination_by sch _ _ _ => (sizeOf sch, 0)

theorem processFields_plain : ∀ (shape : List (String × SchemaNode)),
    shapeWF shape = true → plainShape shape = true →
    ∀ (cfg acc : List (String × JValue)),
      (∀ k, k ∈ shape.map Prod.fst → k ∉ acc.map Prod.fst) →
      (rewriteFields shape cfg = none → processFields shape cfg acc = none)
      ∧ (∀ out, rewriteFields shape cfg = some out →
          processFields shape cfg acc = some (acc ++ out))
  | [], _, _, cfg, acc, _ => by
    refine ⟨fun h => by simp [rewriteFields] at h, fun out h => ?_⟩
    simp only [rewriteFields, Option.some.injEq] at h
    subst h
    simp [processFields]
  | (k, sub) :: rest, hwf, hp, cfg, acc, hdisj => by
    simp only [shapeWF, Bool.and_eq_true, Bool.not_eq_true', decide_eq_false_iff_not] at hwf
    obtain ⟨⟨hknot, hsub⟩, hrest⟩ := hwf
    simp only [plainShape, Bool.and_eq_true] at hp
    obtain ⟨hpsub, hprest⟩ := hp
    have hkacc : k ∉ acc.map Prod.fst := hdisj k (by simp)
    have hdisjrest : ∀ k0, k0 ∈ rest.map Prod.fst → k0 ∉ acc.map Prod.fst :=
      fun k0 hk0 => hdisj k0 (by simp [hk0])
    cases hl : lookupField cfg k with
    | none =>
      constructor
      · intro h
        simp only [rewriteFields, hl] at h
        have := (processFields_plain rest hrest hprest cfg acc hdisjrest).1 h
        simp [processFields, hl, this]
      · intro out h
        simp only [rewriteFields, hl] at h
        have := (processFields_plain rest hrest hprest cfg acc hdisjrest).2 out h
        simp [processFields, hl, this]
    | some v =>
      cases hv : elementwiseRewrite sub v with
      | none =>
        have hnew := (rewriteWithAcc_plain sub hsub hpsub v).1 hv
        exact ⟨fun _ => by simp [processFields, hl, hnew],
          fun out h => by simp [rewriteFields, hl, hv] at h⟩
      | some w =>
        obtain ⟨r, accSub, hr, hres⟩ := (rewriteWithAcc_plain sub hsub hpsub v).2 w hv
        by_cases he : isEmptyVal w
        · cases ht : rewriteFields rest cfg with
          | none =>
            have hrec := (processFields_plain rest hrest hprest cfg acc hdisjrest).1 ht
            constructor
            · intro _
              simp [processFields, hl, hr, hres, he, deleteKey_fresh acc k hkacc, hrec]
            · intro out h
              simp [rewriteFields, hl, hv, ht] at h
          | some tail =>
            have hrec := (processFields_plain rest hrest hprest cfg acc hdisjrest).2 tail ht
            refine ⟨fun h => by simp [rewriteFields, hl, hv, ht] at h, fun out h => ?_⟩
            simp only [rewriteFields, hl, hv, ht, Option.some.injEq] at h
            rw [if_pos he] at h
            subst h
            simp [processFields, hl, hr, hres, he, deleteKey_fresh acc k hkacc, hrec]
        · have hsk : setKey acc k w = acc ++ [(k, w)] := setKey_fresh acc k w hkacc
          have hdisj2 : ∀ k0, k0 ∈ rest.map Prod.fst →
              k0 ∉ (acc ++ [(k, w)]).map Prod.fst := by
            intro k0 hk0
            simp only [List.map_append, List.mem_append, List.map_cons, List.map_nil,
              List.mem_cons, List.not_mem_nil, or_false, not_or]
            exact ⟨hdisjrest k0 hk0, fun he2 => hknot (he2 ▸ hk0)⟩
          cases ht : rewriteFields rest cfg with
          | none =>
            have hrec := (processFields_plain rest hrest hprest cfg (acc ++ [(k, w)]) hdisj2).1 ht
            constructor
            · intro _
              simp [processFields, hl, hr, hres, he, hsk, hrec]
            · intro out h
              simp [rewriteFields, hl, hv, ht] at h
          | some tail =>
            have hrec := (processFields_plain rest hrest hprest cfg (acc ++ [(k, w)]) hdisj2).2 tail ht
            refine ⟨fun h => by simp [rewriteFields, hl, hv, ht] at h, fun out h => ?_⟩
            simp only [rewriteFields, hl, hv, ht, Option.some.injEq] at h
            rw [if_neg he] at h
            subst h
            have happ : acc ++ [(k, w)] ++ tail = acc ++ (k, w) :: tail := by simp
            simp [processFields, hl, hr, hres, he, hsk, hrec, happ]
termination_by shape _ _ _ _ _ => (sizeOf shape, 0)

end

/-- On well-formed schemas whose arrays never touch the shared accumulator,
the source rewriter agrees with the elementwise reference model. -/
theorem rewriteConfiguration_plain_agree (sch : SchemaNode) (hwf : SchemaWF sch = true)
    (hp : plainSchema sch = true) (v : JValue) :
    rewriteConfiguration sch v = elementwiseRewrite sch v := by
  cases hv : elementwiseRewrite sch v with
  | none =>
    have := (rewriteWithAcc_plain sch hwf hp v).1 hv
    simp [rewriteConfiguration, this]
  | some w =>
    obtain ⟨r, acc', hr, hres⟩ := (rewriteWithAcc_plain sch hwf hp v).2 w hv
    simp [rewriteConfiguration, hr, hres]

/-- An example schema: a scalar field, a nested object and an array. -/
def exampleSchema : SchemaNode :=
  .object [("a", .scalar), ("b", .object [("c", .optional .scalar)]), ("d", .array .scalar)]

/-- An example value for `exampleSchema`, with keys out of schema order and a
vacuous nested object. -/
def exampleConfigValue : JValue :=
  .obj [("d", .arr [.str "v"]), ("b", .obj []), ("a", .str "x")]

/-- Its rewritten form: schema-ordered, with the empty sub-object pruned. -/
def exampleRewritten : JValue :=
  .obj [("a", .str "x"), ("d", .arr [.str "v"])]

/-- Element schema with two optional scalar fields, declared `a` before `b`. -/
def pairSchema : SchemaNode :=
  .object [("a", .optional .scalar), ("b", .optional .scalar)]

/-- An array of such objects: all its elements share one accumulator. -/
def arrayPairSchema : SchemaNode := .array pairSchema

/-- Two records carrying complementary fields. -/
def splitPairValue : JValue := .arr [.obj [("b", .num 2)], .obj [("a", .num 1)]]

/-- What the rewriter produces for `splitPairValue`: both array slots alias
the shared accumulator, whose keys sit in cross-element insertion order
`b`, `a`. -/
def mergedPairValue : JValue :=
  .arr [.obj [("b", .num 2), ("a", .num 1)], .obj [("b", .num 2), ("a", .num 1)]]

/-- Rewriting `mergedPairValue` again: now each element carries both keys, so
the first element's walk rebuilds the accumulator in schema order `a`, `b`. -/
def reorderedPairValue : JValue :=
  .arr [.obj [("a", .num 1), ("b", .num 2)], .obj [("a", .num 1), ("b", .num 2)]]

/-- C6 counterexample: for the well-formed array-of-objects schema, the
rewriter is not idempotent — `mergedPairValue` is itself an output of
`rewriteConfiguration`, yet rewriting it produces the differently-ordered
`reorderedPairValue`, because the array branch forwards one shared `result`
accumulator to every element. -/
theorem rewrite_not_idempotent_for_array_of_objects :
    SchemaWF arrayPairSchema = true
    ∧ rewriteConfiguration arrayPairSchema splitPairValue = some mergedPairValue
    ∧ rewriteConfiguration arrayPairSchema mergedPairValue = some reorderedPairValue
    ∧ reorderedPairValue ≠ mergedPairValue := by
  refine ⟨by simp [arrayPairSchema, pairSchema, SchemaWF, shapeWF], ?_, ?_, ?_⟩
  · simp [arrayPairSchema, pairSchema, splitPairValue, mergedPairValue,
      rewriteConfiguration, rewriteWithAcc, rewriteItems, processFields, resolveR,
      resolveRList, setKey, deleteKey, lookupField, isEmptyVal]
  · simp [arrayPairSchema, pairSchema, mergedPairValue, reorderedPairValue,
      rewriteConfiguration, rewriteWithAcc, rewriteItems, processFields, resolveR,
      resolveRList, setKey, deleteKey, lookupField, isEmptyVal]
  · simp [mergedPairValue, reorderedPairValue]

/-- C6 amended: rewriting is idempotent for every well-formed schema whose
array element schemas contain no object node (reachable through wrappers and
arrays), i.e. whenever the `result` object the array branch forwards to its
elements is never written and no sharing between siblings occurs; with arrays
of objects the elements alias and merge into the shared accumulator and
idempotence fails. -/
theorem rewrite_idempotent_plain :
    ∀ (sch : SchemaNode) (v w : JValue), SchemaWF sch = true →
      plainSchema sch = true → rewriteConfiguration sch v = some w →
      rewriteConfiguration sch w = some w := by
  intro sch v w hwf hp h
  rw [rewriteConfiguration_plain_agree sch hwf hp] at h ⊢
  exact elementwiseRewrite_idem_aux sch v w hwf h

/-- Witness for C6: rewriting the example value then rewriting the result
reproduces the result. -/
theorem rewrite_idempotent_plain_witness :
    rewriteConfiguration exampleSchema exampleRewritten = some exampleRewritten :=
  rewrite_idempotent_plain exampleSchema exampleConfigValue exampleRewritten
    (by simp [exampleSchema, SchemaWF, shapeWF])
    (by simp [exampleSchema, plainSchema, plainShape, touchesAcc])
    (by simp [exampleSchema, exampleConfigValue, exampleRewritten, rewriteConfiguration,
      rewriteWithAcc, rewriteItems, processFields, resolveR, resolveRList, setKey,
      deleteKey, lookupField, isEmptyVal])

/-- C7 counterexample: the rewriter's output for `splitPairValue` lists the
first element's fields as `b`, `a` although the schema declares `a` before
`b` — the shared accumulator accumulates keys in cross-element insertion
order — so the output is not canonical for the schema. -/
theorem rewrite_output_not_schema_ordered_for_array_of_objects :
    rewriteConfiguration arrayPairSchema splitPairValue = some mergedPairValue
    ∧ canonicalValue arrayPairSchema mergedPairValue = false := by
  constructor
  · simp [arrayPairSchema, pairSchema, splitPairValue, mergedPairValue,
      rewriteConfiguration, rewriteWithAcc, rewriteItems, processFields, resolveR,
      resolveRList, setKey, deleteKey, lookupField, isEmptyVal]
  · simp [arrayPairSchema, pairSchema, mergedPairValue, canonicalValue, canonicalElems,
      canonicalFields, isEmptyVal]

/-- C7 amended: for every well-formed schema whose arrays never touch the
shared accumulator, the rewriter's output is canonical — at every object node
the emitted fields form an in-order subsequence of the schema's declared keys
with no empty object/array values — and for every schema the field walk reads
its configuration only through key lookup, so two configurations with the
same lookups (in particular reorderings of distinct keys) are processed
alike; for arrays of objects the sharing breaks schema ordering (see the
counterexample). -/
theorem rewrite_schema_ordered_and_pruned_plain :
    (∀ (sch : SchemaNode) (v w : JValue), SchemaWF sch = true →
        plainSchema sch = true → rewriteConfiguration sch v = some w →
        canonicalValue sch w = true)
    ∧ (∀ (shape : List (String × SchemaNode)) (cfg cfg' acc : List (String × JValue)),
        (∀ k, lookupField cfg k = lookupField cfg' k) →
        processFields shape cfg acc = processFields shape cfg' acc) := by
  constructor
  · intro sch v w hwf hp h
    rw [rewriteConfiguration_plain_agree sch hwf hp] at h
    exact elementwiseRewrite_canonical_aux sch v w hwf h
  · exact processFields_ext

/-- Witness for C7: the example output is canonical for the example schema,
and a two-key object is processed identically after swapping its keys. -/
theorem rewrite_schema_ordered_and_pruned_plain_witness :
    canonicalValue exampleSchema exampleRewritten = true
    ∧ processFields [("a", SchemaNode.scalar)]
        [("x", JValue.str "u"), ("a", JValue.str "y")] []
      = processFields [("a", SchemaNode.scalar)]
        [("a", JValue.str "y"), ("x", JValue.str "u")] [] :=
  ⟨rewrite_schema_ordered_and_pruned_plain.1 exampleSchema exampleConfigValue
      exampleRewritten
      (by simp [exampleSchema, SchemaWF, shapeWF])
      (by simp [exampleSchema, plainSchema, plainShape, touchesAcc])
      (by simp [exampleSchema, exampleConfigValue, exampleRewritten, rewriteConfiguration,
        rewriteWithAcc, rewriteItems, processFields, resolveR, resolveRList, setKey,
        deleteKey, lookupField, isEmptyVal]),
   rewrite_schema_ordered_and_pruned_plain.2 [("a", SchemaNode.scalar)]
      [("x", JValue.str "u"), ("a", JValue.str "y")]
      [("a", JValue.str "y"), ("x", JValue.str "u")] []
      (by
        intro k
        by_cases h1 : "x" = k
        · subst h1; simp [lookupField]
        · by_cases h2 : "a" = k
          · subst h2; simp [lookupField]
          · simp [lookupField, h1, h2])⟩

/-- The runtime extension-instance fields relevant to the `App` operations:
`type` (matched by `extensionsForType`), `localIdentifier` and the late-bound
`devUUID` (used by `updateExtensionUUIDS`), plus representative structural
fields for the frame property. -/
structure ExtensionInstance where
  type : String
  handle : String := ""
  localIdentifier : String := ""
  devUUID : String := ""
  name : String := ""
  directory : String := ""
  configuration : String := ""
deriving DecidableEq, Repr

/-- The identifier pair `extensionsForType` matches against. -/
structure SpecIdentifiers where
  identifier : String
  externalIdentifier : String
deriving DecidableEq, Repr

/-- The `App` fields relevant to the modelled operations. -/
structure App where
  name : String := ""
  directory : String := ""
  allExtensions : List ExtensionInstance := []
deriving DecidableEq, Repr

/-- `App.extensionsForType`: the extensions whose `type` equals the
specification's canonical `identifier` or its `externalIdentifier`. -/
def App.extensionsForType (app : App) (specification : SpecIdentifiers) :
    List ExtensionInstance :=
  app.allExtensions.filter fun e =>
    e.type == specification.identifier || e.type == specification.externalIdentifier

/-- `App.updateExtensionUUIDS`: set each extension's `devUUID` to the map
entry for its `localIdentifier`, keeping the previous value when the map has
no entry (`uuids[extension.localIdentifier] ?? extension.devUUID`). -/
def App.updateExtensionUUIDS (app : App) (uuids : List (String × String)) : App :=
  { app with
    allExtensions := app.allExtensions.map fun e =>
      { e with devUUID := (lookupField uuids e.localIdentifier).getD e.devUUID } }

/-- C8: `extensionsForType` returns exactly the extension instances whose
`type` equals the specification's canonical identifier or its external
identifier — an extension matching either name is included, one matching
neither is excluded. -/
theorem extensionsForType_matches_either_identifier :
    ∀ (app : App) (specification : SpecIdentifiers) (e : ExtensionInstance),
      e ∈ app.extensionsForType specification ↔
        e ∈ app.allExtensions
          ∧ (e.type = specification.identifier
            ∨ e.type = specification.externalIdentifier) := by
  intro app s e
  simp [App.extensionsForType, List.mem_filter]

/-- C9: `updateExtensionUUIDS` mutates only the late-bound runtime identity —
the app's other fields and the extension list's length are unchanged, each
extension whose `localIdentifier` is in the map gets the mapped `devUUID`,
each extension absent from the map keeps its previous `devUUID`, and every
field other than `devUUID` is unchanged on every extension. -/
theorem updateExtensionUUIDS_updates_only_devUUID :
    ∀ (app : App) (uuids : List (String × String)),
      (app.updateExtensionUUIDS uuids).name = app.name
      ∧ (app.updateExtensionUUIDS uuids).directory = app.directory
      ∧ (app.updateExtensionUUIDS uuids).allExtensions.length
          = app.allExtensions.length
      ∧ ∀ (i : Nat) (e : ExtensionInstance), app.allExtensions[i]? = some e →
          ∃ e', (app.updateExtensionUUIDS uuids).allExtensions[i]? = some e'
            ∧ (∀ u, lookupField uuids e.localIdentifier = some u → e'.devUUID = u)
            ∧ (lookupField uuids e.localIdentifier = none → e'.devUUID = e.devUUID)
            ∧ e'.type = e.type ∧ e'.handle = e.handle
            ∧ e'.localIdentifier = e.localIdentifier ∧ e'.name = e.name
            ∧ e'.directory = e.directory ∧ e'.configuration = e.configuration := by
  intro app uuids
  refine ⟨rfl, rfl, by simp [App.updateExtensionUUIDS], ?_⟩
  intro i e he
  refine ⟨{ e with devUUID := (lookupField uuids e.localIdentifier).getD e.devUUID },
    ?_, ?_, ?_, rfl, rfl, rfl, rfl, rfl, rfl⟩
  · simp [App.updateExtensionUUIDS, he]
  · intro u hu; simp [hu]
  · intro hu; simp [hu]

/-- An extension instance whose identifier appears in the UUID map. -/
def exampleExtension : ExtensionInstance :=
  { type := "ui_extension", localIdentifier := "ext1", devUUID := "old-uuid" }

/-- An app holding the example extension. -/
def exampleApp : App := { name := "app", allExtensions := [exampleExtension] }

/-- Witness for C9: updating the example app with a map containing the
extension's identifier. -/
theorem updateExtensionUUIDS_updates_only_devUUID_witness :
    ∃ e', (exampleApp.updateExtensionUUIDS
        [("ext1", "new-uuid")]).allExtensions[0]? = some e'
      ∧ (∀ u, lookupField [("ext1", "new-uuid")] exampleExtension.localIdentifier = some u
          → e'.devUUID = u)
      ∧ (lookupField [("ext1", "new-uuid")] exampleExtension.localIdentifier = none
          → e'.devUUID = exampleExtension.devUUID)
      ∧ e'.type = exampleExtension.type ∧ e'.handle = exampleExtension.handle
      ∧ e'.localIdentifier = exampleExtension.localIdentifier
      ∧ e'.name = exampleExtension.name
      ∧ e'.directory = exampleExtension.directory
      ∧ e'.configuration = exampleExtension.configuration :=
  (updateExtensionUUIDS_updates_only_devUUID exampleApp [("ext1", "new-uuid")]).2.2.2
    0 exampleExtension (by simp [exampleApp])

/-- One entry of `extension_points` (`NewExtensionPointSchemaType`): the
fields the modelled functions read. -/
structure ExtensionPoint where
  target : String
  module : String := ""
deriving DecidableEq, Repr

/-- The `ui_extension` configuration fields the modelled functions read. -/
structure UIExtensionConfig where
  extension_points : List ExtensionPoint := []
deriving DecidableEq, Repr

/-- `appModuleFeatures` of the `ui_extension` specification, parameterised by
the external `getExtensionPointTargetSurface` lookup (imported from the dev
services, identical in both call sites): the basic features `ui_preview`,
`bundling`, `esbuild`, plus `cart_url` when some declared extension point's
target maps to the `checkout` surface. -/
def appModuleFeatures (surfaceOf : String → String) (config : UIExtensionConfig) :
    List String :=
  let basic : List String := ["ui_preview", "bundling", "esbuild"]
  let needsCart :=
    (config.extension_points.find? fun ep => surfaceOf ep.target == "checkout").isSome
  if needsCart then basic ++ ["cart_url"] else basic

/-- `shouldFetchCartUrl` of the `ui_extension` specification: true when some
declared extension point's target maps to the `checkout` surface. -/
def shouldFetchCartUrl (surfaceOf : String → String) (config : UIExtensionConfig) : Bool :=
  (config.extension_points.find? fun ep => surfaceOf ep.target == "checkout").isSome

/-- C10: for every surface lookup and configuration, `shouldFetchCartUrl` is
true exactly when `appModuleFeatures` contains `cart_url`; both reduce to the
predicate that some declared extension point's target maps to the `checkout`
surface; and `appModuleFeatures` always contains `ui_preview`, `bundling`
and `esbuild`. -/
theorem shouldFetchCartUrl_iff_cart_url_feature :
    ∀ (surfaceOf : String → String) (config : UIExtensionConfig),
      (shouldFetchCartUrl surfaceOf config = true ↔
        "cart_url" ∈ appModuleFeatures surfaceOf config)
      ∧ (shouldFetchCartUrl surfaceOf config = true ↔
        ∃ ep ∈ config.extension_points, surfaceOf ep.target = "checkout")
      ∧ "ui_preview" ∈ appModuleFeatures surfaceOf config
      ∧ "bundling" ∈ appModuleFeatures surfaceOf config
      ∧ "esbuild" ∈ appModuleFeatures surfaceOf config := by
  intro f config
  have hiff : shouldFetchCartUrl f config = true ↔
      ∃ ep ∈ config.extension_points, f ep.target = "checkout" := by
    rw [shouldFetchCartUrl, List.find?_isSome]
    simp
  have hcases : (appModuleFeatures f config = ["ui_preview", "bundling", "esbuild"]
        ∧ shouldFetchCartUrl f config = false)
      ∨ (appModuleFeatures f config = ["ui_preview", "bundling", "esbuild", "cart_url"]
        ∧ shouldFetchCartUrl f config = true) := by
    rw [appModuleFeatures, shouldFetchCartUrl]
    by_cases h : (config.extension_points.find? fun ep => f ep.target == "checkout").isSome
    · right; simp [h]
    · left; simp [h]
  rcases hcases with ⟨hf, hs⟩ | ⟨hf, hs⟩ <;>
    refine ⟨?_, hiff, ?_, ?_, ?_⟩ <;> simp [hf, hs]

end CliSpec
